import Mathlib

/-!
Verification of the event-hub / periodic-task-scheduler core of this
repository against its design specification.

The development shallowly embeds the three relevant source modules:

  * src/core/scheduler.rs   — Task (TaskPy) and Scheduler (SchedulerPy)
  * src/core/message_bus.rs — the main event hub (on, on_all, remove,
                              reset, has_listeners, dispatch,
                              dispatch_with_results)
  * src/core/lib.rs         — the older hub variant (_hub module) whose
                              dispatch raises immediately on the first
                              listener error

Python callables are represented by their identity (a Nat standing for
the object pointer compared by Py::is / as_ptr), and a callable body by
an explicit behaviour value of type Except.  Machine integers u128 are
Nat with explicit reduction modulo 2 ^ 128 where the source can wrap
(release-build Rust semantics for the unsigned subtraction in
TaskPy::run).  Stateful code is explicit state passing; the scheduler
thread lifecycle is a small labelled transition system whose events
mirror the operations and loop observations of SchedulerPy.
-/

namespace DDCore

/-- One u128 modulus, for the wrapping subtraction in TaskPy::run. -/
def U128 : Nat := 2 ^ 128

/-- Embedding of TaskPy (src/core/scheduler.rs, lines 15-22).
The Python target and on_shutdown callables are represented by the task
identity (the pointer used for dedup in register_task) plus a flag
recording whether on_shutdown is Some.  The f32 interval is represented
by its millisecond value, i.e. the result of the source expression
(self.interval * 1000.0).round() as u128 computed once at the boundary. -/
structure Task where
  name : String
  id : Nat
  intervalMs : Nat
  lastRun : Nat
  hasShutdown : Bool
  deriving Repr, DecidableEq

/-- Embedding of TaskPy::run (src/core/scheduler.rs, lines 47-57).
The body argument is the outcome the Python target call would produce;
the source discards it (let _ = self.target.call0(py)) and the function
always returns Ok(()), so the result type has no error channel.  The
subtraction now - self.last_run is u128 arithmetic: in a release build
it wraps modulo 2 ^ 128, which the embedding makes explicit.  Returns
the updated task and whether the body was invoked. -/
def Task.run (t : Task) (body : Except String Nat) (now : Nat) : Task × Bool :=
  let elapsed := (now + U128 - t.lastRun) % U128
  if t.intervalMs ≤ elapsed then
    let _ignored := body
    ({ t with lastRun := now }, true)
  else
    (t, false)

/-- Embedding of TaskPy::shutdown (src/core/scheduler.rs, lines 59-67):
invoke on_shutdown if present (its error is discarded); the value
returned here is the identity of the hook that was invoked, if any. -/
def Task.shutdownHook (t : Task) : Option Nat :=
  if t.hasShutdown then some t.id else none

/-- Embedding of the SchedulerPy state (src/core/scheduler.rs, lines
70-75).  handle models self.handle.is_some(); isRunning models the
is_running atomic; threadAlive records whether the spawned loop closure
is still executing (true from spawn until the loop returns). -/
structure Scheduler where
  tasks : List Task
  handle : Bool
  isRunning : Bool
  threadAlive : Bool
  deriving Repr, DecidableEq

/-- SchedulerPy::new(false): empty task list, no handle, not running. -/
def Scheduler.init : Scheduler :=
  { tasks := [], handle := false, isRunning := false, threadAlive := false }

/-- SchedulerPy::register_task (lines 93-105): push the task unless a
task with the same identity (as_ptr comparison) is already present. -/
def Scheduler.registerTask (s : Scheduler) (t : Task) : Scheduler :=
  if s.tasks.any (fun u => u.id = t.id) then s
  else { s with tasks := s.tasks ++ [t] }

/-- SchedulerPy::unregister_task (lines 107-113): retain every task
whose identity differs from the argument. -/
def Scheduler.unregisterTask (s : Scheduler) (tid : Nat) : Scheduler :=
  { s with tasks := s.tasks.filter (fun u => u.id ≠ tid) }

/-- SchedulerPy::start (lines 127-161): early return when a handle is
already present; otherwise store true into is_running and spawn the
loop thread. -/
def Scheduler.start (s : Scheduler) : Scheduler :=
  if s.handle then s
  else { s with handle := true, isRunning := true, threadAlive := true }

/-- SchedulerPy::stop (lines 163-178): early return when no handle is
present; otherwise store false into is_running, take and join the
handle (the loop thread has exited when join returns), then call
shutdown on every task in list order.  The second component is the
trace of shutdown hooks invoked, in order. -/
def Scheduler.stop (s : Scheduler) : Scheduler × List Nat :=
  if s.handle then
    ({ s with handle := false, isRunning := false, threadAlive := false },
     s.tasks.filterMap Task.shutdownHook)
  else
    (s, [])

/-- Drop for SchedulerPy (lines 181-194): a duplicate of stop without
calling shutdown on tasks — signal the flag, take and join the handle,
touch nothing else. -/
def Scheduler.dropScheduler (s : Scheduler) : Scheduler :=
  if s.handle then
    { s with handle := false, isRunning := false, threadAlive := false }
  else s

/-- Loop observation of py.check_signals() returning Err (lines
138-144): only a live, spinning loop performs the check; it stores
false into is_running and returns from the closure, so the thread
exits while the JoinHandle stays in place. -/
def Scheduler.signalInterrupt (s : Scheduler) : Scheduler :=
  if s.threadAlive && s.isRunning then
    { s with isRunning := false, threadAlive := false }
  else s

/-- Loop observation of is_running = false at the top of the while
loop (line 137): the thread exits; the JoinHandle stays in place. -/
def Scheduler.loopExit (s : Scheduler) : Scheduler :=
  if s.threadAlive && !s.isRunning then
    { s with threadAlive := false }
  else s

/-- One loop tick (lines 146-155): snapshot now once, then run every
task against that snapshot.  Task bodies are abstracted since Task.run
ignores the body outcome. -/
def Scheduler.tick (s : Scheduler) (now : Nat) : Scheduler :=
  if s.threadAlive && s.isRunning then
    { s with tasks := s.tasks.map (fun t => (Task.run t (Except.ok 0) now).1) }
  else s

/-- The operations and loop observations that can act on a scheduler. -/
inductive SEvent where
  | register (t : Task)
  | unregister (tid : Nat)
  | start
  | stop
  | dropS
  | signal
  | loopExit
  | tick (now : Nat)
  deriving Repr, DecidableEq

/-- One event step; the second component is the trace of shutdown
hooks the event invoked (only stop produces any). -/
def SchedulerStep (s : Scheduler) (e : SEvent) : Scheduler × List Nat :=
  match e with
  | .register t => (s.registerTask t, [])
  | .unregister tid => (s.unregisterTask tid, [])
  | .start => (s.start, [])
  | .stop => s.stop
  | .dropS => (s.dropScheduler, [])
  | .signal => (s.signalInterrupt, [])
  | .loopExit => (s.loopExit, [])
  | .tick now => (s.tick now, [])

/-- Run a sequence of events from a given scheduler state, accumulating
the shutdown-hook trace. -/
def SchedulerRunFrom (s : Scheduler) (evs : List SEvent) : Scheduler × List Nat :=
  evs.foldl
    (fun acc e =>
      let r := SchedulerStep acc.1 e
      (r.1, acc.2 ++ r.2))
    (s, [])

/-- Run a sequence of events from the freshly constructed scheduler. -/
def SchedulerRun (evs : List SEvent) : Scheduler × List Nat :=
  SchedulerRunFrom Scheduler.init evs

/-! Embedding of src/core/message_bus.rs.  Listeners are identities
(Nat, the pointer compared by Py::is); the HashMap from event id to
listener vector is an association list. -/

/-- HashMap::get on the association-list representation. -/
def lookupList : List (String × List Nat) → String → Option (List Nat)
  | [], _ => none
  | (k, v) :: rest, key => if k = key then some v else lookupList rest key

/-- Store a value for a key: replace the binding if the key is present,
append a fresh binding otherwise (HashMap::insert / get_mut update). -/
def setList : List (String × List Nat) → String → List Nat → List (String × List Nat)
  | [], key, v => [(key, v)]
  | (k, w) :: rest, key, v =>
    if k = key then (key, v) :: rest else (k, w) :: setList rest key v

/-- The two static tables EVENT_LISTENERS and GLOBAL_LISTENERS
(message_bus.rs, lines 10-12). -/
structure MBState where
  events : List (String × List Nat)
  globals : List Nat
  deriving Repr, DecidableEq

/-- The tables at process start: both empty. -/
def MBState.init : MBState := { events := [], globals := [] }

/-- has_listeners (message_bus.rs, lines 14-20): Some v maps to
!v.is_empty(), None maps to false. -/
def mbHasListeners (s : MBState) (eventId : String) : Bool :=
  match lookupList s.events eventId with
  | some v => !v.isEmpty
  | none => false

/-- on (message_bus.rs, lines 22-37): if a list exists for the event id
insert the callback at position 0 unless an identical one is already
present; otherwise create a singleton list for the event id. -/
def mbOn (s : MBState) (eventId : String) (c : Nat) : MBState :=
  match lookupList s.events eventId with
  | some l =>
    if c ∈ l then s
    else { s with events := setList s.events eventId (c :: l) }
  | none => { s with events := setList s.events eventId [c] }

/-- on_all (message_bus.rs, lines 39-47): insert at position 0 of the
global list unless already present. -/
def mbOnAll (s : MBState) (c : Nat) : MBState :=
  if c ∈ s.globals then s else { s with globals := c :: s.globals }

/-- reset (message_bus.rs, lines 49-55): clear both tables. -/
def mbReset (_s : MBState) : MBState :=
  { events := [], globals := [] }

/-- remove (message_bus.rs, lines 57-64): retain, in the list for the
event id, every callback whose identity differs; no-op when the event
id has no list. -/
def mbRemove (s : MBState) (eventId : String) (c : Nat) : MBState :=
  match lookupList s.events eventId with
  | some l => { s with events := setList s.events eventId (l.filter (fun f => f ≠ c)) }
  | none => s

/-- dispatch (message_bus.rs, lines 66-80): invoke each listener of the
event id in list order with args (call results are discarded), then
invoke each global listener with (event_id, args).  The embedding
returns the two invocation traces: the named listeners invoked in
order, and the global listeners each paired with the event id it was
passed. -/
def mbDispatch (s : MBState) (eventId : String) : List Nat × List (Nat × String) :=
  let named :=
    match lookupList s.events eventId with
    | some l => l
    | none => []
  (named, s.globals.map (fun f => (f, eventId)))

/-- The loop body of dispatch_with_results over the named listeners
(message_bus.rs, lines 92-105): on Err push (none, some error), on Ok
push (some value, none), never stopping early. -/
def mbCollect (beh : Nat → Except Nat Nat) : List Nat → List (Option Nat) × List (Option Nat)
  | [] => ([], [])
  | f :: rest =>
    let r := mbCollect beh rest
    match beh f with
    | .error e => (none :: r.1, some e :: r.2)
    | .ok v => (some v :: r.1, none :: r.2)

/-- dispatch_with_results (message_bus.rs, lines 82-113): build the
results and exceptions lists over the named listeners, then invoke
every global listener with (event_id, args), discarding global call
results.  Returns ((results, exceptions), global invocation trace). -/
def mbDispatchResults (beh : Nat → Except Nat Nat) (s : MBState) (eventId : String) :
    (List (Option Nat) × List (Option Nat)) × List (Nat × String) :=
  let named :=
    match lookupList s.events eventId with
    | some l => l
    | none => []
  (mbCollect beh named, s.globals.map (fun f => (f, eventId)))

/-- The mutating operations of the message bus, for stating invariants
over arbitrary operation sequences. -/
inductive MBOp where
  | on (eventId : String) (c : Nat)
  | onAll (c : Nat)
  | remove (eventId : String) (c : Nat)
  | reset
  deriving Repr, DecidableEq

/-- Apply one message-bus operation. -/
def mbApply (s : MBState) (op : MBOp) : MBState :=
  match op with
  | .on eventId c => mbOn s eventId c
  | .onAll c => mbOnAll s c
  | .remove eventId c => mbRemove s eventId c
  | .reset => mbReset s

/-- Apply a sequence of message-bus operations to the initial state. -/
def mbApplyAll (ops : List MBOp) : MBState :=
  ops.foldl mbApply MBState.init

/-! Embedding of src/core/lib.rs, the older _hub variant.  Its state is
a single HashMap from event id to listener vector; it has no global
listener list and no remove operation. -/

/-- The HUB static of lib.rs (lines 7-15). -/
structure LibHub where
  listeners : List (String × List Nat)
  deriving Repr, DecidableEq

/-- The hub at process start: empty. -/
def LibHub.init : LibHub := { listeners := [] }

/-- on (lib.rs, lines 25-38): if a list exists for the event id, insert
the callback at position 0 unconditionally — this variant performs no
duplicate check; otherwise create a singleton list. -/
def libOn (s : LibHub) (eventId : String) (c : Nat) : LibHub :=
  match lookupList s.listeners eventId with
  | some l => { listeners := setList s.listeners eventId (c :: l) }
  | none => { listeners := setList s.listeners eventId [c] }

/-- reset_listeners (lib.rs, lines 40-44): clear the table. -/
def libReset (_s : LibHub) : LibHub := { listeners := [] }

/-- The invocation loop of lib.rs dispatch: each call uses the question
mark operator, so the first listener error propagates out of dispatch
at once.  Returns the trace of listeners actually invoked (the failing
one included) and the propagated error, if any. -/
def libInvoke (beh : Nat → Except Nat Nat) : List Nat → List Nat × Option Nat
  | [] => ([], none)
  | f :: rest =>
    match beh f with
    | .error e => ([f], some e)
    | .ok _ =>
      let r := libInvoke beh rest
      (f :: r.1, r.2)

/-- dispatch (lib.rs, lines 46-63): when no list exists for the event
id return the empty tuple at once; otherwise invoke the listeners in
list order, propagating the first error.  This variant maintains no
global listener list, so nothing else runs after the named listeners. -/
def libDispatch (beh : Nat → Except Nat Nat) (s : LibHub) (eventId : String) :
    List Nat × Option Nat :=
  match lookupList s.listeners eventId with
  | none => ([], none)
  | some l => libInvoke beh l

/-! Theorems. -/

/-- C2: for every task and time now with lastRun ≤ now < 2 ^ 128,
Task.run invokes the body iff now - lastRun ≥ intervalMs; when invoked
it sets lastRun to now; the result is independent of the body outcome
(errors are swallowed, never propagated — the source also has no error
channel in the return value); and a task with intervalMs = 0 runs on
every tick. -/
theorem task_run_due_iff (t : Task) (body1 body2 : Except String Nat) (now : Nat)
    (hle : t.lastRun ≤ now) (hlt : now < U128) :
    ((Task.run t body1 now).2 = true ↔ t.intervalMs ≤ now - t.lastRun) ∧
    ((Task.run t body1 now).2 = true → (Task.run t body1 now).1.lastRun = now) ∧
    Task.run t body1 now = Task.run t body2 now ∧
    (t.intervalMs = 0 → (Task.run t body1 now).2 = true) := by
  have hd : now - t.lastRun < U128 := lt_of_le_of_lt (Nat.sub_le _ _) hlt
  have hmod : (now + U128 - t.lastRun) % U128 = now - t.lastRun := by
    have h1 : now + U128 - t.lastRun = U128 + (now - t.lastRun) := by omega
    rw [h1, Nat.add_mod_left, Nat.mod_eq_of_lt hd]
  have hrun : ∀ b : Except String Nat,
      Task.run t b now =
        if t.intervalMs ≤ now - t.lastRun then ({ t with lastRun := now }, true)
        else (t, false) := by
    intro b
    simp only [Task.run, hmod]
  by_cases hc : t.intervalMs ≤ now - t.lastRun
  · refine ⟨by simp [hrun, hc], by simp [hrun, hc], by rw [hrun, hrun], fun _ => by simp [hrun, hc]⟩
  · refine ⟨by simp [hrun, hc], by simp [hrun, hc], by rw [hrun, hrun], fun h0 => ?_⟩
    exact absurd (h0 ▸ Nat.zero_le (now - t.lastRun)) hc

/-- C2 witness: a task with intervalMs = 1000, lastRun = 5 is invoked
at now = 2000. -/
theorem task_run_due_iff_witness :
    (5 : Nat) ≤ 2000 ∧ (Task.run ⟨"hb", 1, 1000, 5, false⟩ (Except.ok 0) 2000).2 = true :=
  ⟨by norm_num,
   (task_run_due_iff ⟨"hb", 1, 1000, 5, false⟩ (Except.ok 0) (Except.error "boom") 2000
       (by norm_num) (by norm_num [U128])).1.mpr (by norm_num)⟩

/-- C10: the due-time computation in Task.run is the u128 subtraction
now - last_run, well defined only when now ≥ last_run.  When run is
invoked with now earlier than lastRun (both below 2 ^ 128), the
subtraction wraps to the huge value 2 ^ 128 + now - lastRun, and for
every intervalMs at most that value the body fires and lastRun is
advanced — even though in exact arithmetic the task is not yet due
whenever intervalMs > 0. -/
theorem task_run_underflow (t : Task) (body : Except String Nat) (now : Nat)
    (h1 : now < t.lastRun) (h2 : t.lastRun < U128)
    (h3 : t.intervalMs ≤ U128 + now - t.lastRun) :
    (Task.run t body now).2 = true ∧
    (now + U128 - t.lastRun) % U128 = U128 + now - t.lastRun ∧
    (Task.run t body now).1.lastRun = now ∧
    (0 < t.intervalMs → (now : Int) - (t.lastRun : Int) < (t.intervalMs : Int)) := by
  have hval : now + U128 - t.lastRun = U128 + now - t.lastRun := by omega
  have hltm : U128 + now - t.lastRun < U128 := by omega
  have hmod : (now + U128 - t.lastRun) % U128 = U128 + now - t.lastRun := by
    rw [hval]
    exact Nat.mod_eq_of_lt hltm
  have hrun : Task.run t body now = ({ t with lastRun := now }, true) := by
    simp only [Task.run, hmod]
    rw [if_pos h3]
  exact ⟨by rw [hrun], hmod, by rw [hrun], fun _ => by omega⟩

/-- C10 witness: a task with lastRun = 100 handed the earlier snapshot
now = 50 fires although only interval 1000 ms tasks cannot be due 50 ms
in the past. -/
theorem task_run_underflow_witness :
    (50 : Nat) < 100 ∧ (Task.run ⟨"hb", 1, 1000, 100, false⟩ (Except.ok 0) 50).2 = true :=
  ⟨by norm_num,
   (task_run_underflow ⟨"hb", 1, 1000, 100, false⟩ (Except.ok 0) 50
       (by norm_num) (by norm_num [U128]) (by norm_num [U128])).1⟩

/-- The shutdown-hook trace of a task list is the identity of every
task carrying a hook, in list order. -/
theorem shutdown_trace_eq (l : List Task) :
    l.filterMap Task.shutdownHook = (l.filter (fun t => t.hasShutdown)).map Task.id := by
  induction l with
  | nil => rfl
  | cons t rest ih =>
    cases h : t.hasShutdown <;>
      simp [List.filterMap_cons, List.filter_cons, Task.shutdownHook, h, ih]

/-- C1 counterexample: the sequence register, start, signal-interrupt
leaves a scheduler on which start() has been called and stop() has not,
whose running flag is false (the loop observed the interrupt and
exited) — yet stop() on it is not a no-op: it changes the state and
invokes the registered shutdown hook.  The source gates stop on
self.handle.is_some(), not on is_running. -/
theorem scheduler_stop_not_noop_counterexample :
    (SchedulerRun [SEvent.register ⟨"t1", 1, 0, 0, true⟩, SEvent.start,
        SEvent.signal]).1.handle = true ∧
    (SchedulerRun [SEvent.register ⟨"t1", 1, 0, 0, true⟩, SEvent.start,
        SEvent.signal]).1.isRunning = false ∧
    Scheduler.stop (SchedulerRun [SEvent.register ⟨"t1", 1, 0, 0, true⟩, SEvent.start,
        SEvent.signal]).1 ≠
      ((SchedulerRun [SEvent.register ⟨"t1", 1, 0, 0, true⟩, SEvent.start,
        SEvent.signal]).1, []) ∧
    (Scheduler.stop (SchedulerRun [SEvent.register ⟨"t1", 1, 0, 0, true⟩, SEvent.start,
        SEvent.signal]).1).2 = [1] := by
  decide

/-- C1 (amended): on a scheduler whose task identities are distinct
(the register_task dedup guarantees this for reachable states), stop()
is a no-op exactly when no loop-thread handle is present (never
started, or already stopped or dropped); whenever a handle is present —
whether or not the running flag is still set — stop() joins the loop
thread (it has exited when stop returns) and invokes the shutdown hook
of every registered task exactly once, in registration order. -/
theorem scheduler_stop_spec (s : Scheduler) (hn : (s.tasks.map Task.id).Nodup) :
    (s.handle = true →
       s.stop.1 = { s with handle := false, isRunning := false, threadAlive := false } ∧
       s.stop.1.threadAlive = false ∧
       s.stop.2 = s.tasks.filterMap Task.shutdownHook ∧
       (∀ t ∈ s.tasks, t.hasShutdown = true → s.stop.2.count t.id = 1)) ∧
    (s.handle = false → s.stop = (s, [])) := by
  constructor
  · intro h
    have hstop : s.stop =
        ({ s with handle := false, isRunning := false, threadAlive := false },
         s.tasks.filterMap Task.shutdownHook) := by
      simp [Scheduler.stop, h]
    refine ⟨by rw [hstop], by rw [hstop], by rw [hstop], ?_⟩
    intro t ht hs
    have htrace : s.stop.2 = (s.tasks.filter (fun t => t.hasShutdown)).map Task.id := by
      rw [hstop, shutdown_trace_eq]
    have hsub : List.Sublist ((s.tasks.filter (fun t => t.hasShutdown)).map Task.id)
        (s.tasks.map Task.id) :=
      (List.filter_sublist s.tasks).map Task.id
    have hnd : ((s.tasks.filter (fun t => t.hasShutdown)).map Task.id).Nodup :=
      hn.sublist hsub
    have hmem : t.id ∈ (s.tasks.filter (fun t => t.hasShutdown)).map Task.id :=
      List.mem_map_of_mem Task.id (List.mem_filter.mpr ⟨ht, by simp [hs]⟩)
    rw [htrace]
    exact List.count_eq_one_of_mem hnd hmem
  · intro h
    simp [Scheduler.stop, h]

/-- C1 witness: a started scheduler holding two hook-carrying tasks
runs both hooks, in registration order, when stopped. -/
theorem scheduler_stop_spec_witness :
    (Scheduler.stop ⟨[⟨"a", 1, 5, 0, true⟩, ⟨"b", 2, 5, 0, true⟩],
        true, false, false⟩).2 = [1, 2] ∧
    (Scheduler.stop ⟨[⟨"a", 1, 5, 0, true⟩, ⟨"b", 2, 5, 0, true⟩],
        true, false, false⟩).1.handle = false := by
  have h := (scheduler_stop_spec
      ⟨[⟨"a", 1, 5, 0, true⟩, ⟨"b", 2, 5, 0, true⟩], true, false, false⟩ (by decide)).1 rfl
  exact ⟨by rw [h.2.2.1]; rfl, by rw [h.1]⟩

/-- C7: dropping a still-running scheduler (no explicit stop) signals
the loop to exit and joins the thread — no leaked thread — but invokes
no shutdown hook (the event trace is empty) and leaves the task list
and every task in it untouched. -/
theorem scheduler_drop_spec (s : Scheduler) (h : s.handle = true) :
    SchedulerStep s SEvent.dropS =
      ({ s with handle := false, isRunning := false, threadAlive := false }, []) ∧
    (SchedulerStep s SEvent.dropS).1.tasks = s.tasks ∧
    (SchedulerStep s SEvent.dropS).1.threadAlive = false := by
  simp [SchedulerStep, Scheduler.dropScheduler, h]

/-- C7 witness: dropping a concrete running scheduler keeps its task
(with its hook uninvoked) and clears the thread state. -/
theorem scheduler_drop_spec_witness :
    SchedulerStep ⟨[⟨"t1", 1, 0, 0, true⟩], true, true, true⟩ SEvent.dropS =
      (⟨[⟨"t1", 1, 0, 0, true⟩], false, false, false⟩, []) ∧
    (SchedulerStep ⟨[⟨"t1", 1, 0, 0, true⟩], true, true, true⟩ SEvent.dropS).1.tasks =
      [⟨"t1", 1, 0, 0, true⟩] :=
  ⟨(scheduler_drop_spec ⟨[⟨"t1", 1, 0, 0, true⟩], true, true, true⟩ rfl).1,
   (scheduler_drop_spec ⟨[⟨"t1", 1, 0, 0, true⟩], true, true, true⟩ rfl).2.1⟩

/-- C8: start() on an already-running scheduler is a no-op that leaves
the state (the running flag included) unchanged and spawns no second
thread, and stop() on a scheduler that was never started is a no-op
that changes nothing and invokes no shutdown hook; neither operation
has an error path (both source functions return Ok on these branches). -/
theorem scheduler_lifecycle_noop (s : Scheduler) :
    (s.handle = true → s.isRunning = true → Scheduler.start s = s) ∧
    (s.handle = false → Scheduler.stop s = (s, [])) := by
  constructor
  · intro h _
    simp [Scheduler.start, h]
  · intro h
    simp [Scheduler.stop, h]

/-- C8 witness: double start on a running scheduler and stop on the
fresh scheduler are both no-ops. -/
theorem scheduler_lifecycle_noop_witness :
    Scheduler.start ⟨[], true, true, true⟩ = ⟨[], true, true, true⟩ ∧
    Scheduler.stop Scheduler.init = (Scheduler.init, []) :=
  ⟨(scheduler_lifecycle_noop ⟨[], true, true, true⟩).1 rfl rfl,
   (scheduler_lifecycle_noop Scheduler.init).2 rfl⟩

/-- Storing a value and looking the same key up yields that value. -/
theorem lookup_set_self (m : List (String × List Nat)) (k : String) (v : List Nat) :
    lookupList (setList m k v) k = some v := by
  induction m with
  | nil => simp [setList, lookupList]
  | cons p rest ih =>
    obtain ⟨k1, v1⟩ := p
    by_cases h : k1 = k
    · simp [setList, h, lookupList]
    · simp [setList, h, lookupList, ih]

/-- Storing a value leaves every other key unchanged. -/
theorem lookup_set_other (m : List (String × List Nat)) (k k2 : String) (v : List Nat)
    (h : k2 ≠ k) : lookupList (setList m k v) k2 = lookupList m k2 := by
  induction m with
  | nil =>
    have hk : ¬(k = k2) := fun he => h he.symm
    simp [setList, lookupList, hk]
  | cons p rest ih =>
    obtain ⟨k1, v1⟩ := p
    by_cases h1 : k1 = k
    · subst h1
      have hk : ¬(k1 = k2) := fun he => h (he ▸ rfl)
      simp [setList, lookupList, hk]
    · by_cases h2 : k1 = k2
      · subst h2
        simp [setList, h1, lookupList]
      · simp [setList, h1, lookupList, h2, ih]

/-- The message-bus on never touches the global list. -/
theorem mbOn_globals (s : MBState) (eventId : String) (c : Nat) :
    (mbOn s eventId c).globals = s.globals := by
  unfold mbOn
  cases lookupList s.events eventId with
  | none => rfl
  | some l0 => by_cases hc : c ∈ l0 <;> simp [hc]

/-- The message-bus remove never touches the global list. -/
theorem mbRemove_globals (s : MBState) (eventId : String) (c : Nat) :
    (mbRemove s eventId c).globals = s.globals := by
  unfold mbRemove
  cases lookupList s.events eventId with
  | none => rfl
  | some l0 => rfl

/-- The message-bus on preserves duplicate-freedom of every per-event
listener list: it only ever prepends a callback that the target list
does not already contain. -/
theorem mbOn_nodup (s : MBState) (eventId : String) (c : Nat)
    (h1 : ∀ k l, lookupList s.events k = some l → l.Nodup) :
    ∀ k l, lookupList (mbOn s eventId c).events k = some l → l.Nodup := by
  intro k l hkl
  by_cases hk : k = eventId
  · subst hk
    cases hl : lookupList s.events k with
    | none =>
      have hev : (mbOn s k c).events = setList s.events k [c] := by simp [mbOn, hl]
      rw [hev, lookup_set_self] at hkl
      have : l = [c] := (Option.some.inj hkl).symm
      rw [this]
      exact List.nodup_singleton c
    | some l0 =>
      by_cases hc : c ∈ l0
      · have hid : mbOn s k c = s := by simp [mbOn, hl, hc]
        rw [hid] at hkl
        exact h1 k l hkl
      · have hev : (mbOn s k c).events = setList s.events k (c :: l0) := by
          simp [mbOn, hl, hc]
        rw [hev, lookup_set_self] at hkl
        have : l = c :: l0 := (Option.some.inj hkl).symm
        rw [this]
        exact List.nodup_cons.mpr ⟨hc, h1 k l0 hl⟩
  · cases hl : lookupList s.events eventId with
    | none =>
      have hev : (mbOn s eventId c).events = setList s.events eventId [c] := by
        simp [mbOn, hl]
      rw [hev, lookup_set_other _ _ _ _ hk] at hkl
      exact h1 k l hkl
    | some l0 =>
      by_cases hc : c ∈ l0
      · have hid : mbOn s eventId c = s := by simp [mbOn, hl, hc]
        rw [hid] at hkl
        exact h1 k l hkl
      · have hev : (mbOn s eventId c).events = setList s.events eventId (c :: l0) := by
          simp [mbOn, hl, hc]
        rw [hev, lookup_set_other _ _ _ _ hk] at hkl
        exact h1 k l hkl

/-- The message-bus remove preserves duplicate-freedom: filtering a
duplicate-free list keeps it duplicate-free. -/
theorem mbRemove_nodup (s : MBState) (eventId : String) (c : Nat)
    (h1 : ∀ k l, lookupList s.events k = some l → l.Nodup) :
    ∀ k l, lookupList (mbRemove s eventId c).events k = some l → l.Nodup := by
  intro k l hkl
  cases hl : lookupList s.events eventId with
  | none =>
    have hid : mbRemove s eventId c = s := by simp [mbRemove, hl]
    rw [hid] at hkl
    exact h1 k l hkl
  | some l0 =>
    have hev : (mbRemove s eventId c).events =
        setList s.events eventId (l0.filter (fun f => f ≠ c)) := by
      simp [mbRemove, hl]
    by_cases hk : k = eventId
    · subst hk
      rw [hev, lookup_set_self] at hkl
      have : l = l0.filter (fun f => f ≠ c) := (Option.some.inj hkl).symm
      rw [this]
      exact (h1 k l0 hl).filter _
    · rw [hev, lookup_set_other _ _ _ _ hk] at hkl
      exact h1 k l hkl

/-- Each message-bus operation preserves the no-duplicate invariant of
every per-event list and of the global list. -/
theorem mbApply_preserves (s : MBState) (op : MBOp)
    (h1 : ∀ k l, lookupList s.events k = some l → l.Nodup)
    (h2 : s.globals.Nodup) :
    (∀ k l, lookupList (mbApply s op).events k = some l → l.Nodup) ∧
    (mbApply s op).globals.Nodup := by
  match op with
  | MBOp.on eventId c =>
    exact ⟨mbOn_nodup s eventId c h1, by rw [show (mbApply s (MBOp.on eventId c)).globals =
      s.globals from mbOn_globals s eventId c]; exact h2⟩
  | MBOp.onAll c =>
    constructor
    · intro k l hkl
      by_cases hc : c ∈ s.globals
      · have hid : mbOnAll s c = s := by simp [mbOnAll, hc]
        rw [show mbApply s (MBOp.onAll c) = mbOnAll s c from rfl, hid] at hkl
        exact h1 k l hkl
      · have hev : (mbOnAll s c).events = s.events := by simp [mbOnAll, hc]
        rw [show (mbApply s (MBOp.onAll c)).events = (mbOnAll s c).events from rfl, hev] at hkl
        exact h1 k l hkl
    · by_cases hc : c ∈ s.globals
      · simpa [mbApply, mbOnAll, hc] using h2
      · simpa [mbApply, mbOnAll, hc] using List.nodup_cons.mpr ⟨hc, h2⟩
  | MBOp.remove eventId c =>
    exact ⟨mbRemove_nodup s eventId c h1, by rw [show (mbApply s
      (MBOp.remove eventId c)).globals = s.globals from mbRemove_globals s eventId c]; exact h2⟩
  | MBOp.reset =>
    constructor
    · intro k l hkl
      simp [mbApply, mbReset, lookupList] at hkl
    · simp [mbApply, mbReset]

/-- Folding any operation sequence over an invariant-satisfying state
keeps the invariant. -/
theorem mb_foldl_inv (ops : List MBOp) : ∀ s : MBState,
    (∀ k l, lookupList s.events k = some l → l.Nodup) → s.globals.Nodup →
    (∀ k l, lookupList (ops.foldl mbApply s).events k = some l → l.Nodup) ∧
    (ops.foldl mbApply s).globals.Nodup := by
  induction ops with
  | nil => exact fun s h1 h2 => ⟨h1, h2⟩
  | cons op rest ih =>
    intro s h1 h2
    have hp := mbApply_preserves s op h1 h2
    exact ih (mbApply s op) hp.1 hp.2

/-- Every state reachable from the empty tables satisfies the
no-duplicate invariant. -/
theorem mbApplyAll_inv (ops : List MBOp) :
    (∀ k l, lookupList (mbApplyAll ops).events k = some l → l.Nodup) ∧
    (mbApplyAll ops).globals.Nodup := by
  exact mb_foldl_inv ops MBState.init
    (by intro k l hl; simp [MBState.init, lookupList] at hl)
    (by simp [MBState.init])

/-- After on, the callback is present in the list stored for the event
id. -/
theorem mbOn_mem (s : MBState) (k : String) (c : Nat) :
    ∃ l, lookupList (mbOn s k c).events k = some l ∧ c ∈ l := by
  cases hl : lookupList s.events k with
  | none =>
    refine ⟨[c], ?_, List.mem_singleton_self c⟩
    have hev : (mbOn s k c).events = setList s.events k [c] := by simp [mbOn, hl]
    rw [hev]
    exact lookup_set_self _ _ _
  | some l0 =>
    by_cases hc : c ∈ l0
    · refine ⟨l0, ?_, hc⟩
      have hid : mbOn s k c = s := by simp [mbOn, hl, hc]
      rw [hid]
      exact hl
    · refine ⟨c :: l0, ?_, List.mem_cons_self c l0⟩
      have hev : (mbOn s k c).events = setList s.events k (c :: l0) := by
        simp [mbOn, hl, hc]
      rw [hev]
      exact lookup_set_self _ _ _

/-- C3 counterexample: the lib.rs hub variant (also cited by the
claim) performs no duplicate check in on, so registering the same
listener identity twice under one event name stores it twice and
dispatch invokes it twice, not once. -/
theorem lib_on_duplicate_counterexample :
    lookupList (libOn (libOn LibHub.init "x" 0) "x" 0).listeners "x" = some [0, 0] ∧
    (libDispatch (fun _ => Except.ok 0) (libOn (libOn LibHub.init "x" 0) "x" 0) "x").1.count 0
      = 2 := by
  decide

/-- C3 (amended to the message_bus.rs hub): over every sequence of
on / onAll / remove / reset operations from the empty tables, no
per-event list and not the global list ever contains a listener
identity twice, and registering the same identity twice under one
event name yields exactly one invocation per dispatch. -/
theorem mb_no_duplicate_listeners (ops : List MBOp) (k : String) (c : Nat) :
    (∀ l, lookupList (mbApplyAll ops).events k = some l → l.Nodup) ∧
    (mbApplyAll ops).globals.Nodup ∧
    (mbDispatch (mbOn (mbOn (mbApplyAll ops) k c) k c) k).1.count c = 1 := by
  have h := mbApplyAll_inv ops
  refine ⟨fun l hl => h.1 k l hl, h.2, ?_⟩
  have hn1 := mbOn_nodup (mbApplyAll ops) k c h.1
  have hn2 := mbOn_nodup (mbOn (mbApplyAll ops) k c) k c hn1
  obtain ⟨l2, hl2, hc2⟩ := mbOn_mem (mbOn (mbApplyAll ops) k c) k c
  have htrace : (mbDispatch (mbOn (mbOn (mbApplyAll ops) k c) k c) k).1 = l2 := by
    simp [mbDispatch, hl2]
  rw [htrace]
  exact List.count_eq_one_of_mem (hn2 k l2 hl2) hc2

/-- C3 witness: after an unrelated global registration, registering
listener 3 twice under event x yields exactly one invocation. -/
theorem mb_no_duplicate_listeners_witness :
    (mbDispatch (mbOn (mbOn (mbApplyAll [MBOp.onAll 7]) "x" 3) "x" 3) "x").1.count 3 = 1 :=
  (mb_no_duplicate_listeners [MBOp.onAll 7] "x" 3).2.2

/-- C4: on(x, L) then on(x, M) for distinct L and M, from the empty
tables, makes dispatch(x) invoke M before L — each on inserts at
position 0 and dispatch iterates the list in order, so the named trace
is exactly [M, L]. -/
theorem mb_dispatch_most_recent_first (x : String) (L M : Nat) (h : L ≠ M) :
    (mbDispatch (mbOn (mbOn MBState.init x L) x M) x).1 = [M, L] := by
  have hML : ¬(M = L) := fun he => h he.symm
  have h1 : mbOn MBState.init x L = { events := [(x, [L])], globals := [] } := by
    simp [mbOn, MBState.init, lookupList, setList]
  have h2 : lookupList [(x, [L])] x = some [L] := by simp [lookupList]
  have h3 : mbOn { events := [(x, [L])], globals := [] } x M =
      { events := [(x, [M, L])], globals := ([] : List Nat) } := by
    simp [mbOn, h2, hML, setList]
  rw [h1, h3]
  simp [mbDispatch, lookupList]

/-- C4 witness: listeners 0 then 1 on event x dispatch as [1, 0]. -/
theorem mb_dispatch_most_recent_first_witness :
    (0 : Nat) ≠ 1 ∧ (mbDispatch (mbOn (mbOn MBState.init "x" 0) "x" 1) "x").1 = [1, 0] :=
  ⟨by decide, mb_dispatch_most_recent_first "x" 0 1 (by decide)⟩

/-- The results component of the collecting loop is the listener list
mapped through the ok-projection of each behaviour. -/
theorem mbCollect_results (beh : Nat → Except Nat Nat) (l : List Nat) :
    (mbCollect beh l).1 =
      l.map (fun f => match beh f with | .error _ => none | .ok v => some v) := by
  induction l with
  | nil => rfl
  | cons a rest ih => cases hb : beh a <;> simp [mbCollect, hb, ih]

/-- The exceptions component of the collecting loop is the listener
list mapped through the error-projection of each behaviour. -/
theorem mbCollect_errors (beh : Nat → Except Nat Nat) (l : List Nat) :
    (mbCollect beh l).2 =
      l.map (fun f => match beh f with | .error e => some e | .ok _ => none) := by
  induction l with
  | nil => rfl
  | cons a rest ih => cases hb : beh a <;> simp [mbCollect, hb, ih]

/-- C5: with listener list l registered for the event name, collecting
dispatch returns two sequences of length N = l.length; at each index,
a raising listener contributes an absent result and its error, and a
succeeding listener contributes its value and an absent error; no
failure shortens the lists; and the global listeners are all invoked
with (eventName, args) afterwards regardless of those outcomes. -/
theorem mb_dispatch_results_spec (beh : Nat → Except Nat Nat) (s : MBState)
    (eventId : String) (l : List Nat)
    (hl : lookupList s.events eventId = some l) :
    (mbDispatchResults beh s eventId).1.1.length = l.length ∧
    (mbDispatchResults beh s eventId).1.2.length = l.length ∧
    (∀ (i : Nat) (f : Nat), l[i]? = some f →
      (∀ (e : Nat), beh f = Except.error e →
          (mbDispatchResults beh s eventId).1.1[i]? = some (none : Option Nat) ∧
          (mbDispatchResults beh s eventId).1.2[i]? = some (some e)) ∧
      (∀ (v : Nat), beh f = Except.ok v →
          (mbDispatchResults beh s eventId).1.1[i]? = some (some v) ∧
          (mbDispatchResults beh s eventId).1.2[i]? = some (none : Option Nat))) ∧
    (mbDispatchResults beh s eventId).2 = s.globals.map (fun f => (f, eventId)) := by
  have h1 : (mbDispatchResults beh s eventId).1 = mbCollect beh l := by
    simp [mbDispatchResults, hl]
  have hres := mbCollect_results beh l
  have herr := mbCollect_errors beh l
  refine ⟨?_, ?_, ?_, rfl⟩
  · rw [h1, hres]
    simp
  · rw [h1, herr]
    simp
  · intro i f hf
    refine ⟨fun e he => ⟨?_, ?_⟩, fun v hv => ⟨?_, ?_⟩⟩
    · rw [h1, hres]
      simp [List.getElem?_map, hf, he]
    · rw [h1, herr]
      simp [List.getElem?_map, hf, he]
    · rw [h1, hres]
      simp [List.getElem?_map, hf, hv]
    · rw [h1, herr]
      simp [List.getElem?_map, hf, hv]

/-- C5 witness: listeners [1, 2] on event x where 1 raises 5 and 2
returns 2; both sequences have length 2 and the global listener 9 is
invoked with the event name. -/
theorem mb_dispatch_results_spec_witness :
    lookupList ([("x", [1, 2])] : List (String × List Nat)) "x" = some [1, 2] ∧
    (mbDispatchResults (fun n => if n = 1 then Except.error 5 else Except.ok n)
        ⟨[("x", [1, 2])], [9]⟩ "x").1.1.length = 2 ∧
    (mbDispatchResults (fun n => if n = 1 then Except.error 5 else Except.ok n)
        ⟨[("x", [1, 2])], [9]⟩ "x").2 = [(9, "x")] :=
  ⟨by decide,
   (mb_dispatch_results_spec (fun n => if n = 1 then Except.error 5 else Except.ok n)
       ⟨[("x", [1, 2])], [9]⟩ "x" [1, 2] (by decide)).1,
   (mb_dispatch_results_spec (fun n => if n = 1 then Except.error 5 else Except.ok n)
       ⟨[("x", [1, 2])], [9]⟩ "x" [1, 2] (by decide)).2.2.2⟩

/-- When every listener before f succeeds and f raises, the invocation
loop of the lib.rs dispatch runs exactly the listeners up to and
including f and propagates the error of f. -/
theorem libInvoke_short (beh : Nat → Except Nat Nat) (pre post : List Nat) (f e : Nat)
    (hpre : ∀ g ∈ pre, ∃ v, beh g = Except.ok v)
    (hf : beh f = Except.error e) :
    libInvoke beh (pre ++ f :: post) = (pre ++ [f], some e) := by
  induction pre with
  | nil => simp [libInvoke, hf]
  | cons a rest ih =>
    obtain ⟨v, hv⟩ := hpre a (List.mem_cons_self a rest)
    have hrest := ih (fun g hg => hpre g (List.mem_cons_of_mem a hg))
    simp [libInvoke, hv, hrest]

/-- C6: in the raise-immediately variant (lib.rs dispatch), when the
listener f for the event name raises after the listeners before it
succeeded, dispatch short-circuits: the trace is exactly the listeners
through f, every later listener for that event name is skipped, and
the error propagates to the caller.  This variant maintains no global
listener list, so the set of global listeners that still run afterward
is the empty set of those registered. -/
theorem lib_dispatch_short_circuit (beh : Nat → Except Nat Nat) (s : LibHub)
    (eventId : String) (pre post : List Nat) (f e : Nat)
    (hl : lookupList s.listeners eventId = some (pre ++ f :: post))
    (hpre : ∀ g ∈ pre, ∃ v, beh g = Except.ok v)
    (hf : beh f = Except.error e) :
    libDispatch beh s eventId = (pre ++ [f], some e) := by
  have hd : libDispatch beh s eventId = libInvoke beh (pre ++ f :: post) := by
    simp [libDispatch, hl]
  rw [hd]
  exact libInvoke_short beh pre post f e hpre hf

/-- C6 witness: listeners [1, 2, 3] where 2 raises 9; dispatch invokes
1 and 2, skips 3, and returns the error. -/
theorem lib_dispatch_short_circuit_witness :
    libDispatch (fun n => if n = 2 then Except.error 9 else Except.ok n)
      ⟨[("x", [1, 2, 3])]⟩ "x" = ([1, 2], some 9) :=
  lib_dispatch_short_circuit (fun n => if n = 2 then Except.error 9 else Except.ok n)
    ⟨[("x", [1, 2, 3])]⟩ "x" [1] [3] 2 9 (by decide)
    (by
      intro g hg
      have hg1 : g = 1 := List.mem_singleton.mp hg
      exact ⟨1, by simp [hg1]⟩)
    rfl

/-- C9: hasListeners is true exactly when a non-empty listener list is
stored for the name — false both for a never-registered name and for a
name whose list has been emptied by removals — and after reset it is
false for every name. -/
theorem mb_has_listeners_iff (s : MBState) (k : String) :
    (mbHasListeners s k = true ↔ ∃ l, lookupList s.events k = some l ∧ l ≠ []) ∧
    (∀ k2, mbHasListeners (mbReset s) k2 = false) := by
  constructor
  · cases hl : lookupList s.events k with
    | none => simp [mbHasListeners, hl]
    | some v => simp [mbHasListeners, hl]
  · intro k2
    simp [mbReset, mbHasListeners, lookupList]

end DDCore
